import Mathlib

/-!
Verification development for the CoNLL-to-HuggingFace-JSON converter service
(`conll2hf.py`).  The Python source is shallowly embedded: pure string
processing is translated to executable Lean functions over `List Char` /
`String`, the stateful conversion loop becomes explicit state passing over
`ConvState`, Python `float` ratios are modelled as `Rat`, Python dictionaries
(which preserve insertion order and never hold a duplicate key) are modelled
as association lists with Python's update semantics, and filesystem actions of
the splitter are recorded in an explicit effect trace.  Fallible steps (a
Python `KeyError`) return `Option`.
-/

/-! ### Python string primitives

Structural-recursion translations of the Python string operations the source
uses: `str.strip`, `str.split()` (whitespace split), `str.startswith`, and
`str.split('\n\n')`. -/

/-- Whitespace characters stripped by Python's `str.strip()` /
split on by `str.split()` (the ASCII ones). -/
def isPySpace (c : Char) : Bool :=
  c == ' ' || c == '\t' || c == '\n' || c == '\r' || c == '\u000B' || c == '\u000C'

/-- Python `s.strip()`: remove leading and trailing whitespace. -/
def pyStrip (s : String) : String :=
  ⟨((s.data.dropWhile isPySpace).reverse.dropWhile isPySpace).reverse⟩

/-- Helper for `pySplitWs`: split a character list on runs of whitespace,
dropping empty fields, with `acc` the (reversed) current field. -/
def splitWsAux : List Char → List Char → List (List Char)
  | [], acc => if acc = [] then [] else [acc.reverse]
  | c :: rest, acc =>
      if isPySpace c then
        if acc = [] then splitWsAux rest [] else acc.reverse :: splitWsAux rest []
      else splitWsAux rest (c :: acc)

/-- Python `s.split()` with no separator: split on whitespace runs,
no empty fields. -/
def pySplitWs (s : String) : List String :=
  (splitWsAux s.data []).map (fun l => ⟨l⟩)

/-- Python `s.startswith(p)`. -/
def pyStartsWith (s p : String) : Bool :=
  p.data.isPrefixOf s.data

/-- Helper for `pySplitBlocks`: Python `s.split('\n\n')`, greedy
left-to-right on the two-character separator. -/
def splitBlocksAux : List Char → List Char → List (List Char)
  | '\n' :: '\n' :: rest, acc => acc.reverse :: splitBlocksAux rest []
  | c :: rest, acc => splitBlocksAux rest (c :: acc)
  | [], acc => [acc.reverse]

/-- Python `s.split('\n\n')` (the block separator used by the splitter). -/
def pySplitBlocks (s : String) : List String :=
  (splitBlocksAux s.data []).map (fun l => ⟨l⟩)

/-! ### Python dict / Counter / set primitives over association lists -/

/-- Python `d[k]` lookup (as an `Option`): first binding of `k`.
A Python dict never holds a duplicate key, so the first binding is the
binding. -/
def dlookup {α β : Type} [DecidableEq α] : List (α × β) → α → Option β
  | [], _ => none
  | (a, b) :: rest, k => if a = k then some b else dlookup rest k

/-- Python `d[k] = v`: replace the binding in place if `k` is present,
else append the new binding (insertion order semantics). -/
def dinsert {α β : Type} [DecidableEq α] : List (α × β) → α → β → List (α × β)
  | [], k, v => [(k, v)]
  | (a, b) :: rest, k, v =>
      if a = k then (a, v) :: rest else (a, b) :: dinsert rest k v

/-- Python `Counter`'s `c[k] += 1` (missing keys count as 0). -/
def cinc : List (String × Nat) → String → List (String × Nat)
  | [], k => [(k, 1)]
  | (a, n) :: rest, k =>
      if a = k then (a, n + 1) :: rest else (a, n) :: cinc rest k

/-- Value of a `Counter` at a key (0 when absent). -/
def ccount (c : List (String × Nat)) (t : String) : Nat :=
  (dlookup c t).getD 0

/-- Python `set.add` on a deduplicated list. -/
def sadd (s : List String) (t : String) : List String :=
  if t ∈ s then s else s ++ [t]

/-! ### The record converter `conll_to_json`

State-passing translation of `conll_to_json` (lines 60-122 of the source).
File reading is external: the function consumes the list of input lines.
`custom_mapping` is the id-to-tag dict; `tag_dict` its inversion built by
`{v: k for k, v in custom_mapping.items()}`. -/

/-- One structured record (`{"id": ..., "tokens": ..., "ner_tags": ...}`). -/
structure Sentence where
  sid : String
  tokens : List String
  ner_tags : List Int
deriving DecidableEq, Repr

/-- The mutable locals of `conll_to_json`, made explicit. -/
structure ConvState where
  data : List Sentence
  current_sentence : Sentence
  sentence_id : Nat
  tag_counter : List (String × Nat)
  tag_dict : List (String × Int)
  custom_mapping : List (Int × String)
  max_tag_id : Int
  new_entities : List String
deriving DecidableEq, Repr

/-- The dict comprehension `{v: k for k, v in custom_mapping.items()}`. -/
def invertMapping (m : List (Int × String)) : List (String × Int) :=
  m.foldl (fun d p => dinsert d p.2 p.1) []

/-- Python `max(custom_mapping.keys()) if custom_mapping else -1`. -/
def maxKeys : List (Int × String) → Int
  | [] => -1
  | p :: rest => (rest.map Prod.fst).foldl max p.1

/-- Initial state of `conll_to_json` given the seeded `custom_mapping`. -/
def initConvState (custom_mapping : List (Int × String)) : ConvState :=
  { data := []
    current_sentence := { sid := "0", tokens := [], ner_tags := [] }
    sentence_id := 0
    tag_counter := []
    tag_dict := invertMapping custom_mapping
    custom_mapping := custom_mapping
    max_tag_id := maxKeys custom_mapping
    new_entities := [] }

/-- The tag-resolution block (source lines 90-97): if the tag is unknown,
either dynamically register it (`ignore_mismatch` true) or fall back to
`"O"`.  Returns the updated state and the effective tag to be looked up,
counted, and appended. -/
def resolveTag (ignore_mismatch : Bool) (st : ConvState) (ner_tag : String) :
    ConvState × String :=
  if (dlookup st.tag_dict ner_tag).isSome then (st, ner_tag)
  else if ignore_mismatch then
    ({ st with
        max_tag_id := st.max_tag_id + 1
        tag_dict := dinsert st.tag_dict ner_tag (st.max_tag_id + 1)
        custom_mapping := dinsert st.custom_mapping (st.max_tag_id + 1) ner_tag
        new_entities := sadd st.new_entities ner_tag }, ner_tag)
  else (st, "O")

/-- Processing of one `(token, ner_tag)` data line (source lines 88-99).
`none` models the `KeyError` raised by `tag_dict[ner_tag]` when the fallback
tag is itself unregistered. -/
def processToken (ignore_mismatch : Bool) (st : ConvState) (token ner_tag : String) :
    Option ConvState :=
  let st1 := { st with current_sentence :=
      { st.current_sentence with tokens := st.current_sentence.tokens ++ [token] } }
  let rt := resolveTag ignore_mismatch st1 ner_tag
  match dlookup rt.1.tag_dict rt.2 with
  | none => none
  | some i =>
      some { rt.1 with
        current_sentence :=
          { rt.1.current_sentence with ner_tags := rt.1.current_sentence.ner_tags ++ [i] }
        tag_counter := cinc rt.1.tag_counter rt.2 }

/-- A stripped line that terminates the current sentence (source line 80). -/
def isBoundaryLine (line : String) : Bool :=
  pyStartsWith line "-DOCSTART-" || line = ""

/-- Sentence flush on a boundary line (source lines 81-84). -/
def flushSentence (st : ConvState) : ConvState :=
  if st.current_sentence.tokens ≠ [] then
    { st with
      data := st.data ++ [st.current_sentence]
      sentence_id := st.sentence_id + 1
      current_sentence :=
        { sid := toString (st.sentence_id + 1), tokens := [], ner_tags := [] } }
  else st

/-- Processing of one raw input line (source lines 78-99). -/
def processLine (ignore_mismatch : Bool) (st : ConvState) (raw : String) :
    Option ConvState :=
  let line := pyStrip raw
  if isBoundaryLine line then some (flushSentence st)
  else
    let parts := pySplitWs line
    if parts.length ≥ 4 then
      processToken ignore_mismatch st (parts.getD 0 "") (parts.getD 3 "")
    else some st

/-- The `for line in f` loop of `conll_to_json`. -/
def runLines (ignore_mismatch : Bool) : ConvState → List String → Option ConvState
  | st, [] => some st
  | st, l :: ls =>
      match processLine ignore_mismatch st l with
      | some st2 => runLines ignore_mismatch st2 ls
      | none => none

/-- Final flush after the loop (source lines 101-102). -/
def finalFlush (st : ConvState) : ConvState :=
  if st.current_sentence.tokens ≠ [] then
    { st with data := st.data ++ [st.current_sentence] }
  else st

/-- In-memory outcome of `conll_to_json`: the emitted records, the final
id-to-tag table, and the summary dictionary of source lines 117-122. -/
structure ConvResult where
  data : List Sentence
  custom_mapping : List (Int × String)
  tag_counter : List (String × Nat)
  new_entities : List String
  sentences_processed : Nat
  unique_tags : Nat
deriving DecidableEq, Repr

/-- `conll_to_json` on the lines of one split, with a seeded id-to-tag
mapping (an explicitly supplied `custom_mapping`, possibly empty). -/
def conll_to_json (lines : List String) (custom_mapping : List (Int × String))
    (ignore_mismatch : Bool) : Option ConvResult :=
  (runLines ignore_mismatch (initConvState custom_mapping) lines).map (fun st0 =>
    let st := finalFlush st0
    { data := st.data
      custom_mapping := st.custom_mapping
      tag_counter := st.tag_counter
      new_entities := st.new_entities
      sentences_processed := st.data.length
      unique_tags := st.custom_mapping.length })

/-! ### The sentence segmenter

The spec's Sentence Segmenter (§4.2): the same line discipline as
`conll_to_json`, collecting the `(token, tag)` pairs of each sentence.
Used to state round-trip and counting properties of the converter. -/

/-- One segmentation step; `acc.1` the finished sentences, `acc.2` the
current accumulator. -/
def segStep (acc : List (List (String × String)) × List (String × String))
    (raw : String) : List (List (String × String)) × List (String × String) :=
  let line := pyStrip raw
  if isBoundaryLine line then
    if acc.2 ≠ [] then (acc.1 ++ [acc.2], []) else acc
  else
    let parts := pySplitWs line
    if parts.length ≥ 4 then (acc.1, acc.2 ++ [(parts.getD 0 "", parts.getD 3 "")])
    else acc

/-- The segmenter: ordered list of sentences, each a list of
`(token, tag)` pairs. -/
def segmentSentences (lines : List String) : List (List (String × String)) :=
  let acc := lines.foldl segStep ([], [])
  if acc.2 ≠ [] then acc.1 ++ [acc.2] else acc.1

/-- The tag a token's id decodes to: with dynamic registration every tag is
its own effective tag; without it, tags absent from the initial `tag_dict`
`d0` are substituted by `"O"`. -/
def effTag (ignore_mismatch : Bool) (d0 : List (String × Int)) (tag : String) :
    String :=
  if ignore_mismatch then tag
  else if (dlookup d0 tag).isSome then tag else "O"

/-! ### The corpus splitter `split_conll`

Translation of `split_conll` (source lines 124-173).  Filesystem actions are
recorded as an explicit, ordered effect trace; the file's content is supplied
as `content`; `random.shuffle` is the supplied `shuffle` function (a
permutation of its input). -/

/-- One filesystem action performed by `split_conll`, in program order.
A write records the directory and file name of `os.path.join(output_dir, name)`
and the written content. -/
inductive FsEffect where
  | mkdirEff : String → FsEffect
  | readEff : String → FsEffect
  | shuffleEff : FsEffect
  | writeEff : String → String → String → FsEffect
deriving DecidableEq, Repr

/-- Whether an effect is a write of the given file name in the given
directory. -/
def writesTo (dir name : String) : FsEffect → Bool
  | .writeEff d n _ => d = dir && n = name
  | _ => false

/-- Python `int(x)` on a rational: truncation toward zero. -/
def pyInt (q : Rat) : Int := Int.tdiv q.num q.den

/-- Content written by `write_to_file`: `'\n\n'.join(data) + '\n'`. -/
def write_to_file (data : List String) : String :=
  String.intercalate "\n\n" data ++ "\n"

/-- The blocks of the raw corpus: `f.read().strip().split('\n\n')`
(source line 134). -/
def parsedBlocks (content : String) : List String :=
  pySplitBlocks (pyStrip content)

/-- The detached document-boundary marker, when the first block starts with
`-DOCSTART-` (source line 137). -/
def docStartOf (content : String) : Option String :=
  if pyStartsWith ((parsedBlocks content).headD "") "-DOCSTART-" then
    some ((parsedBlocks content).headD "")
  else none

/-- The blocks handed to the shuffle: the parsed blocks, minus the detached
marker (source lines 137-139). -/
def bodyBlocks (content : String) : List String :=
  if (docStartOf content).isSome then (parsedBlocks content).tail
  else parsedBlocks content

/-- The slicing core (source lines 143-150): floor-based end indices and the
three slices, each forced empty when its ratio is not positive. -/
def splitBlocks (data : List String) (ratio : Rat × Rat × Rat) :
    List String × List String × List String :=
  let total_length := data.length
  let train_end_idx := (pyInt ((total_length : Rat) * ratio.1)).toNat
  let val_end_idx := train_end_idx + (pyInt ((total_length : Rat) * ratio.2.1)).toNat
  (if ratio.1 > 0 then data.take train_end_idx else [],
   if ratio.2.1 > 0 then (data.take val_end_idx).drop train_end_idx else [],
   if ratio.2.2 > 0 then data.drop val_end_idx else [])

/-- Re-insertion of the detached marker at the head of a non-empty split
(source lines 153-156). -/
def addDocStart (doc_start : Option String) (split_data : List String) :
    List String :=
  match doc_start with
  | some d => if split_data ≠ [] then d :: split_data else split_data
  | none => split_data

/-- Observable outcome of `split_conll`: the effect trace, the three final
split block lists, and the returned `files_created` (or the raised error). -/
structure SplitOutcome where
  effects : List FsEffect
  train_data : List String
  val_data : List String
  test_data : List String
  result : Except String (List (String × Nat))
deriving Repr

/-- `split_conll` (source lines 124-173).  `os.makedirs` runs first; the
ratio-sum check runs before the file is read and before the shuffle; each
non-empty split is written and reported with its block count; any raised
error is re-wrapped with the `Error during CoNLL splitting:` prefix. -/
def split_conll (conll_file content output_dir : String) (ratio : Rat × Rat × Rat)
    (shuffle : List String → List String) : SplitOutcome :=
  if ratio.1 + ratio.2.1 + ratio.2.2 > 1 then
    { effects := [.mkdirEff output_dir]
      train_data := [], val_data := [], test_data := []
      result := .error "Error during CoNLL splitting: The sum of the split ratios exceeds 1.0" }
  else
    let doc_start := docStartOf content
    let shuffled := shuffle (bodyBlocks content)
    let s := splitBlocks shuffled ratio
    let train_data := addDocStart doc_start s.1
    let val_data := addDocStart doc_start s.2.1
    let test_data := addDocStart doc_start s.2.2
    let writes :=
      (if train_data ≠ [] then
        [FsEffect.writeEff output_dir "train.conll" (write_to_file train_data)]
       else []) ++
      (if val_data ≠ [] then
        [FsEffect.writeEff output_dir "val.conll" (write_to_file val_data)]
       else []) ++
      (if test_data ≠ [] then
        [FsEffect.writeEff output_dir "test.conll" (write_to_file test_data)]
       else [])
    let files_created :=
      (if train_data ≠ [] then [("train.conll", train_data.length)] else []) ++
      (if val_data ≠ [] then [("val.conll", val_data.length)] else []) ++
      (if test_data ≠ [] then [("test.conll", test_data.length)] else [])
    { effects := [.mkdirEff output_dir, .readEff conll_file, .shuffleEff] ++ writes
      train_data := train_data, val_data := val_data, test_data := test_data
      result := .ok files_created }

/-! ### The HTTP endpoint `process_conll`

Control-flow model of the request handler (source lines 175-255), returning
the HTTP status code.  The request's `ratios` form field arrives pre-tokenised
on commas, each piece `some q` when Python `float()` accepts it and `none`
when `float()` raises; the `custom_map` field is either undecodable JSON, a
decoded non-object, or a decoded object whose keys are `some k` when `int()`
accepts them; the `file` field is `none` when the `file` key is absent (the
lookup raises), `some false` for a falsy upload, `some true` otherwise.
Every exception raised inside the handler's `try` is answered by the final
`except Exception` with status 500. -/

/-- The decoded `custom_map` form field. -/
inductive MapField where
  | badJson : MapField
  | nonObject : MapField
  | entries : List (Option Int × String) → MapField
deriving DecidableEq, Repr

/-- The handler after parameter parsing: file retrieval, splitting (with the
ratio-sum check raising), conversion. -/
def process_conll_core (ratios : List Rat) (file_field : Option Bool)
    (processing_ok : Bool) : Nat :=
  match file_field with
  | none => 500
  | some false => 400
  | some true =>
      if ratios.foldl (· + ·) 0 > 1 then 500
      else if processing_ok then 200 else 500

/-- The handler after ratio parsing: `custom_map` decoding. -/
def process_conll_rest (ratios : List Rat) (custom_map_field : Option MapField)
    (file_field : Option Bool) (processing_ok : Bool) : Nat :=
  match custom_map_field with
  | some .badJson => 400
  | some .nonObject => 500
  | some (.entries l) =>
      if l.any (fun e => e.1.isNone) then 500
      else process_conll_core ratios file_field processing_ok
  | none => process_conll_core ratios file_field processing_ok

/-- The request handler: ratio parsing (all `float()` conversions run before
the count check), then the rest. -/
def process_conll (ratios_field : Option (List (Option Rat)))
    (custom_map_field : Option MapField) (file_field : Option Bool)
    (processing_ok : Bool) : Nat :=
  match ratios_field with
  | some comps =>
      if comps.any (fun c => c.isNone) then 500
      else if comps.length ≠ 3 then 400
      else process_conll_rest (comps.map (fun c => c.getD 0)) custom_map_field
        file_field processing_ok
  | none => process_conll_rest [0.7, 0.15, 0.15] custom_map_field file_field
      processing_ok

/-- Whether the `ratios` field parses into three floats (or is absent). -/
def ratiosWellFormed : Option (List (Option Rat)) → Bool
  | none => true
  | some comps => !comps.any (fun c => c.isNone) && comps.length == 3

/-- The ratio triple the handler proceeds with. -/
def parsedRatios : Option (List (Option Rat)) → List Rat
  | none => [0.7, 0.15, 0.15]
  | some comps => comps.map (fun c => c.getD 0)

/-- Whether the `custom_map` field decodes into an int-keyed object
(or is absent). -/
def mapWellFormed : Option MapField → Bool
  | none => true
  | some (.entries l) => !l.any (fun e => e.1.isNone)
  | some _ => false

/-! ### The per-split conversion loop of the endpoint

Source lines 229-241: each split is converted with
`custom_mapping=custom_map, ignore_mismatch=True`.  When the caller supplied
`custom_map`, all calls receive the *same* dict object, which
`conll_to_json` mutates in place; this aliasing is modelled by threading the
returned mapping into the next call.  When `custom_map` is `None`, every call
rebuilds its registry from the latest model configuration (`cfg`, empty when
no configuration exists). -/
def convert_splits (cfg : List (Int × String)) :
    List (List String) → Option (List (Int × String)) →
      List (Option ConvResult) × Option (List (Int × String))
  | [], cm => ([], cm)
  | ls :: rest, cm =>
      let m := match cm with | some m0 => m0 | none => cfg
      match conll_to_json ls m true with
      | some res =>
          let cm2 := match cm with
            | some _ => some res.custom_mapping
            | none => none
          let r := convert_splits cfg rest cm2
          (some res :: r.1, r.2)
      | none =>
          let r := convert_splits cfg rest cm
          (none :: r.1, r.2)

/-! ### Dictionary lemmas -/

theorem dlookup_dinsert_self {α β : Type} [DecidableEq α] (d : List (α × β))
    (k : α) (v : β) : dlookup (dinsert d k v) k = some v := by
  induction d with
  | nil => simp [dinsert, dlookup]
  | cons p rest ih =>
      obtain ⟨a, b⟩ := p
      by_cases h : a = k
      · simp [dinsert, dlookup, h]
      · simp [dinsert, dlookup, h, ih]

theorem dlookup_dinsert_ne {α β : Type} [DecidableEq α] (d : List (α × β))
    {k k' : α} (v : β) (h : k' ≠ k) :
    dlookup (dinsert d k v) k' = dlookup d k' := by
  have h' : ¬ k = k' := fun e => h e.symm
  induction d with
  | nil => simp [dinsert, dlookup, h']
  | cons p rest ih =>
      obtain ⟨a, b⟩ := p
      by_cases ha : a = k
      · subst ha
        simp [dinsert, dlookup, h']
      · by_cases ha' : a = k'
        · simp [dinsert, dlookup, ha, ha', h, h']
        · simp [dinsert, dlookup, ha, ha', ih]

theorem dlookup_mem {α β : Type} [DecidableEq α] {d : List (α × β)} {k : α}
    {v : β} (h : dlookup d k = some v) : (k, v) ∈ d := by
  induction d with
  | nil => simp [dlookup] at h
  | cons p rest ih =>
      obtain ⟨a, b⟩ := p
      by_cases ha : a = k
      · subst ha
        simp [dlookup] at h
        simp [h]
      · simp [dlookup, ha] at h
        exact List.mem_cons_of_mem _ (ih h)

theorem mem_dlookup_of_nodup {α β : Type} [DecidableEq α] {d : List (α × β)}
    {k : α} {v : β} (hnd : (d.map Prod.fst).Nodup) (h : (k, v) ∈ d) :
    dlookup d k = some v := by
  induction d with
  | nil => simp at h
  | cons p rest ih =>
      obtain ⟨a, b⟩ := p
      simp only [List.map_cons, List.nodup_cons] at hnd
      rcases List.mem_cons.mp h with h1 | h2
      · injection h1 with hk hv
        subst hk
        subst hv
        simp [dlookup]
      · have hkmem : k ∈ rest.map Prod.fst := List.mem_map.mpr ⟨(k, v), h2, rfl⟩
        have hak : ¬ a = k := fun e => hnd.1 (by rw [e]; exact hkmem)
        simp [dlookup, hak, ih hnd.2 h2]

theorem dlookup_append_left {α β : Type} [DecidableEq α] {d : List (α × β)}
    (e : List (α × β)) {k : α} {v : β} (h : dlookup d k = some v) :
    dlookup (d ++ e) k = some v := by
  induction d with
  | nil => simp [dlookup] at h
  | cons p rest ih =>
      obtain ⟨a, b⟩ := p
      by_cases ha : a = k
      · simp [dlookup, ha] at h ⊢
        exact h
      · simp [dlookup, ha] at h ⊢
        exact ih h

theorem dlookup_append_right {α β : Type} [DecidableEq α] {d : List (α × β)}
    (e : List (α × β)) {k : α} (h : dlookup d k = none) :
    dlookup (d ++ e) k = dlookup e k := by
  induction d with
  | nil => simp
  | cons p rest ih =>
      obtain ⟨a, b⟩ := p
      by_cases ha : a = k
      · simp [dlookup, ha] at h
      · simp [dlookup, ha] at h ⊢
        exact ih h

theorem dlookup_eq_none_iff {α β : Type} [DecidableEq α] {d : List (α × β)}
    {k : α} : dlookup d k = none ↔ k ∉ d.map Prod.fst := by
  induction d with
  | nil => simp [dlookup]
  | cons p rest ih =>
      obtain ⟨a, b⟩ := p
      by_cases ha : a = k
      · subst ha
        simp [dlookup]
      · have ha' : ¬ k = a := fun e => ha e.symm
        simp [dlookup, ha, ih, ha']

theorem dinsert_of_absent {α β : Type} [DecidableEq α] {d : List (α × β)}
    {k : α} (v : β) (h : dlookup d k = none) : dinsert d k v = d ++ [(k, v)] := by
  induction d with
  | nil => simp [dinsert]
  | cons p rest ih =>
      obtain ⟨a, b⟩ := p
      by_cases ha : a = k
      · simp [dlookup, ha] at h
      · simp [dlookup, ha] at h
        simp [dinsert, ha, ih h]

/-! ### Counter lemma -/

theorem ccount_cinc (c : List (String × Nat)) (k t : String) :
    ccount (cinc c k) t = ccount c t + (if t = k then 1 else 0) := by
  induction c with
  | nil =>
      by_cases h : t = k
      · subst h
        simp [cinc, ccount, dlookup]
      · have h' : ¬ k = t := fun e => h e.symm
        simp [cinc, ccount, dlookup, h, h']
  | cons p rest ih =>
      obtain ⟨a, n⟩ := p
      by_cases hak : a = k
      · subst hak
        by_cases hta : t = a
        · subst hta
          simp [cinc, ccount, dlookup]
        · have hta' : ¬ a = t := fun e => hta e.symm
          simp [cinc, ccount, dlookup, hta, hta']
      · by_cases hta : t = a
        · subst hta
          simp [cinc, ccount, dlookup, hak]
        · have hta' : ¬ a = t := fun e => hta e.symm
          simp only [cinc, if_neg hak]
          simp only [ccount, dlookup, if_neg hta'] at ih ⊢
          exact ih

/-! ### Inversion and max-key lemmas -/

theorem invertMapping_snoc (m : List (Int × String)) (p : Int × String) :
    invertMapping (m ++ [p]) = dinsert (invertMapping m) p.2 p.1 := by
  simp [invertMapping, List.foldl_append]

theorem lookup_invert_mem {m : List (Int × String)} {t : String} {i : Int}
    (h : dlookup (invertMapping m) t = some i) : (i, t) ∈ m := by
  suffices H : ∀ (m : List (Int × String)) (d : List (String × Int)),
      dlookup (m.foldl (fun d p => dinsert d p.2 p.1) d) t = some i →
        (i, t) ∈ m ∨ dlookup d t = some i by
    rcases H m [] h with h1 | h2
    · exact h1
    · simp [dlookup] at h2
  intro m
  induction m with
  | nil => intro d h; exact Or.inr h
  | cons p rest ih =>
      intro d h
      rcases ih (dinsert d p.2 p.1) h with h1 | h2
      · exact Or.inl (List.mem_cons_of_mem _ h1)
      · by_cases hp : p.2 = t
        · rw [← hp, dlookup_dinsert_self] at h2
          injection h2 with h2
          left
          rw [← h2, ← hp]
          exact List.mem_cons_self _ _
        · rw [dlookup_dinsert_ne _ _ (fun e => hp e.symm)] at h2
          exact Or.inr h2

theorem le_foldl_max (a : Int) (l : List Int) : a ≤ l.foldl max a := by
  induction l generalizing a with
  | nil => simp
  | cons x xs ih => exact le_trans (le_max_left a x) (ih (max a x))

theorem mem_le_foldl_max {x : Int} {l : List Int} (a : Int) (h : x ∈ l) :
    x ≤ l.foldl max a := by
  induction l generalizing a with
  | nil => simp at h
  | cons y ys ih =>
      rcases List.mem_cons.mp h with h1 | h2
      · subst h1
        exact le_trans (le_max_right a x) (le_foldl_max _ _)
      · exact ih _ h2

theorem le_maxKeys {m : List (Int × String)} {i : Int} {t : String}
    (h : (i, t) ∈ m) : i ≤ maxKeys m := by
  cases m with
  | nil => simp at h
  | cons p rest =>
      rcases List.mem_cons.mp h with h1 | h2
      · rw [maxKeys, show i = (i, t).1 from rfl, h1]
        exact le_foldl_max _ _
      · exact mem_le_foldl_max _ (List.mem_map.mpr ⟨(i, t), h2, rfl⟩)

theorem maxKeys_snoc {m : List (Int × String)} {i : Int} (t : String)
    (h : maxKeys m < i) : maxKeys (m ++ [(i, t)]) = i := by
  cases m with
  | nil => simp [maxKeys]
  | cons p rest =>
      show maxKeys (p :: (rest ++ [(i, t)])) = i
      rw [maxKeys, List.map_append, List.foldl_append]
      show max ((rest.map Prod.fst).foldl max p.1) i = i
      exact max_eq_right (le_of_lt (by rw [maxKeys] at h; exact h))

/-! ### The registry invariant -/

/-- Invariant tying the converter's registry locals together: `tag_dict` is
the inversion of `custom_mapping`, `max_tag_id` is
`max(custom_mapping.keys(), default -1)`, and `custom_mapping` (a Python
dict) holds no duplicate key. -/
def RegInv (st : ConvState) : Prop :=
  st.tag_dict = invertMapping st.custom_mapping ∧
  st.max_tag_id = maxKeys st.custom_mapping ∧
  (st.custom_mapping.map Prod.fst).Nodup

theorem regInv_init (m : List (Int × String)) (h : (m.map Prod.fst).Nodup) :
    RegInv (initConvState m) := ⟨rfl, rfl, h⟩

theorem invert_lookup {st : ConvState} (hreg : RegInv st) {t : String} {i : Int}
    (h : dlookup st.tag_dict t = some i) :
    dlookup st.custom_mapping i = some t := by
  obtain ⟨h1, _, h3⟩ := hreg
  rw [h1] at h
  exact mem_dlookup_of_nodup h3 (lookup_invert_mem h)

theorem fresh_key_absent {st : ConvState} (hreg : RegInv st) :
    dlookup st.custom_mapping (st.max_tag_id + 1) = none := by
  obtain ⟨_, h2, _⟩ := hreg
  rw [dlookup_eq_none_iff]
  intro hmem
  obtain ⟨⟨i, t⟩, hp, he⟩ := List.mem_map.mp hmem
  simp only at he
  subst he
  have := le_maxKeys hp
  omega

/-- The effective tag actually counted and appended for an incoming tag, as a
function of the state the lookup runs in. -/
def effTagAt (ignore_mismatch : Bool) (st : ConvState) (tag : String) : String :=
  if (dlookup st.tag_dict tag).isSome then tag
  else if ignore_mismatch then tag else "O"

theorem effTagAt_eq_effTag (b : Bool) (st : ConvState) (tag : String) :
    effTagAt b st tag = effTag b st.tag_dict tag := by
  cases b <;> by_cases h : (dlookup st.tag_dict tag).isSome <;>
    simp [effTagAt, effTag, h]

/-- Full characterisation of a successful `processToken` step. -/
theorem processToken_spec {b : Bool} {st : ConvState} {tok tag : String}
    {st2 : ConvState} (hreg : RegInv st)
    (h : processToken b st tok tag = some st2) :
    RegInv st2 ∧
    st2.data = st.data ∧
    st2.sentence_id = st.sentence_id ∧
    st2.current_sentence.sid = st.current_sentence.sid ∧
    st2.current_sentence.tokens = st.current_sentence.tokens ++ [tok] ∧
    (b = false → st2.custom_mapping = st.custom_mapping ∧
      st2.tag_dict = st.tag_dict ∧ st2.max_tag_id = st.max_tag_id) ∧
    (∀ j x, dlookup st.custom_mapping j = some x →
      dlookup st2.custom_mapping j = some x) ∧
    (∀ u i0, dlookup st.tag_dict u = some i0 →
      dlookup st2.tag_dict u = some i0) ∧
    ∃ i, st2.current_sentence.ner_tags = st.current_sentence.ner_tags ++ [i] ∧
      st2.tag_counter = cinc st.tag_counter (effTagAt b st tag) ∧
      dlookup st2.custom_mapping i = some (effTagAt b st tag) := by
  by_cases hks : (dlookup st.tag_dict tag).isSome
  · -- tag already registered: state unchanged apart from the record fields
    obtain ⟨i, hi⟩ := Option.isSome_iff_exists.mp hks
    have hcalc : processToken b st tok tag = some
        { st with
          current_sentence :=
            { st.current_sentence with
              tokens := st.current_sentence.tokens ++ [tok]
              ner_tags := st.current_sentence.ner_tags ++ [i] }
          tag_counter := cinc st.tag_counter tag } := by
      simp [processToken, resolveTag, hks, hi]
    rw [hcalc] at h
    injection h with h
    subst h
    refine ⟨hreg, rfl, rfl, rfl, rfl, fun _ => ⟨rfl, rfl, rfl⟩,
      fun j x hx => hx, fun u i0 hu => hu, i, rfl, ?_, ?_⟩
    · simp [effTagAt, hks]
    · simp only [effTagAt, hks, if_true]
      exact invert_lookup hreg hi
  · by_cases hb : b = true
    · -- unknown tag, dynamic registration: fresh id max_tag_id + 1
      subst hb
      have habs : dlookup st.tag_dict tag = none :=
        Option.not_isSome_iff_eq_none.mp hks
      have hcmfresh : dlookup st.custom_mapping (st.max_tag_id + 1) = none :=
        fresh_key_absent hreg
      have hcalc : processToken true st tok tag = some
          { st with
            current_sentence :=
              { st.current_sentence with
                tokens := st.current_sentence.tokens ++ [tok]
                ner_tags := st.current_sentence.ner_tags ++ [st.max_tag_id + 1] }
            tag_counter := cinc st.tag_counter tag
            tag_dict := dinsert st.tag_dict tag (st.max_tag_id + 1)
            custom_mapping := dinsert st.custom_mapping (st.max_tag_id + 1) tag
            max_tag_id := st.max_tag_id + 1
            new_entities := sadd st.new_entities tag } := by
        simp [processToken, resolveTag, hks, dlookup_dinsert_self]
      rw [hcalc] at h
      injection h with h
      subst h
      obtain ⟨hr1, hr2, hr3⟩ := hreg
      have hcm : dinsert st.custom_mapping (st.max_tag_id + 1) tag =
          st.custom_mapping ++ [(st.max_tag_id + 1, tag)] :=
        dinsert_of_absent _ hcmfresh
      have htd : dinsert st.tag_dict tag (st.max_tag_id + 1) =
          st.tag_dict ++ [(tag, st.max_tag_id + 1)] :=
        dinsert_of_absent _ habs
      have hfreshk : st.max_tag_id + 1 ∉ st.custom_mapping.map Prod.fst :=
        dlookup_eq_none_iff.mp hcmfresh
      refine ⟨⟨?_, ?_, ?_⟩, rfl, rfl, rfl, rfl, by simp,
        ?_, ?_, st.max_tag_id + 1, rfl, ?_, ?_⟩
      · show dinsert st.tag_dict tag (st.max_tag_id + 1) =
          invertMapping (dinsert st.custom_mapping (st.max_tag_id + 1) tag)
        rw [hcm, invertMapping_snoc, ← hr1]
      · show st.max_tag_id + 1 =
          maxKeys (dinsert st.custom_mapping (st.max_tag_id + 1) tag)
        rw [hcm, maxKeys_snoc _ (by omega)]
      · show ((dinsert st.custom_mapping (st.max_tag_id + 1) tag).map
          Prod.fst).Nodup
        rw [hcm]
        simp only [List.map_append, List.map_cons, List.map_nil]
        refine List.Nodup.append hr3 (List.nodup_singleton _) ?_
        intro x hx hmem
        simp only [List.mem_singleton] at hmem
        subst hmem
        exact hfreshk hx
      · intro j x hx
        show dlookup (dinsert st.custom_mapping (st.max_tag_id + 1) tag) j =
          some x
        rw [hcm]
        exact dlookup_append_left _ hx
      · intro u i0 hu
        show dlookup (dinsert st.tag_dict tag (st.max_tag_id + 1)) u = some i0
        rw [htd]
        exact dlookup_append_left _ hu
      · simp [effTagAt, hks]
      · show dlookup (dinsert st.custom_mapping (st.max_tag_id + 1) tag)
          (st.max_tag_id + 1) = some (effTagAt true st tag)
        rw [hcm, dlookup_append_right _ hcmfresh]
        simp [dlookup, effTagAt, hks]
    · -- unknown tag, fallback to "O"
      have hb' : b = false := by
        cases b
        · rfl
        · exact absurd rfl hb
      subst hb'
      have hcalc0 : resolveTag false
          { st with current_sentence :=
            { st.current_sentence with
              tokens := st.current_sentence.tokens ++ [tok] } } tag =
          ({ st with current_sentence :=
            { st.current_sentence with
              tokens := st.current_sentence.tokens ++ [tok] } }, "O") := by
        simp [resolveTag, hks]
      rcases ho : dlookup st.tag_dict "O" with _ | iO
      · exfalso
        rw [processToken, hcalc0] at h
        simp only [ho] at h
        exact Option.noConfusion h
      · have hcalc : processToken false st tok tag = some
            { st with
              current_sentence :=
                { st.current_sentence with
                  tokens := st.current_sentence.tokens ++ [tok]
                  ner_tags := st.current_sentence.ner_tags ++ [iO] }
              tag_counter := cinc st.tag_counter "O" } := by
          rw [processToken, hcalc0]
          simp only [ho]
        rw [hcalc] at h
        injection h with h
        subst h
        refine ⟨hreg, rfl, rfl, rfl, rfl, fun _ => ⟨rfl, rfl, rfl⟩,
          fun j x hx => hx, fun u i0 hu => hu, iO, rfl, ?_, ?_⟩
        · simp [effTagAt, hks]
        · simp only [effTagAt, hks, if_false, Bool.false_eq_true, if_neg]
          exact invert_lookup hreg ho

/-! ### Coupling the converter run with the segmenter -/

/-- A structured record matches a segmented sentence: same token list, and
every appended id decodes through the mapping `cm` to the effective tag
(`effTag`) of the corresponding input tag. -/
def SentOK (b : Bool) (d0 : List (String × Int)) (cm : List (Int × String))
    (pairs : List (String × String)) (s : Sentence) : Prop :=
  s.tokens = pairs.map Prod.fst ∧
  List.Forall₂ (fun i pr => dlookup cm i = some (effTag b d0 pr.2))
    s.ner_tags pairs

theorem SentOK_mono {b : Bool} {d0 : List (String × Int)}
    {cm cm' : List (Int × String)} {pairs : List (String × String)}
    {s : Sentence}
    (hext : ∀ j x, dlookup cm j = some x → dlookup cm' j = some x)
    (h : SentOK b d0 cm pairs s) : SentOK b d0 cm' pairs s :=
  ⟨h.1, h.2.imp (fun i pr hh => hext i _ hh)⟩

/-- Coupling invariant between a converter state and a segmenter
accumulator (`acc.1` finished sentences, `acc.2` the open one). -/
def Couple (b : Bool) (m0 : List (Int × String)) (st : ConvState)
    (acc : List (List (String × String)) × List (String × String)) : Prop :=
  List.Forall₂
    (fun pairs s => SentOK b (invertMapping m0) st.custom_mapping pairs s)
    acc.1 st.data ∧
  SentOK b (invertMapping m0) st.custom_mapping acc.2 st.current_sentence ∧
  RegInv st ∧
  (∀ j x, dlookup m0 j = some x → dlookup st.custom_mapping j = some x) ∧
  (∀ u i, dlookup (invertMapping m0) u = some i →
    dlookup st.tag_dict u = some i) ∧
  (b = false → st.custom_mapping = m0) ∧
  (∀ t, ccount st.tag_counter t =
    ((acc.1.flatten ++ acc.2).map
      (fun pr => effTag b (invertMapping m0) pr.2)).count t)

theorem count_map_snoc {α : Type} (f : α → String) (X : List α) (p : α)
    (t : String) :
    List.count t ((X ++ [p]).map f) =
      List.count t (X.map f) + (if t = f p then 1 else 0) := by
  rw [List.map_append, List.count_append]
  by_cases ht : t = f p
  · rw [if_pos ht, ht]
    simp
  · rw [if_neg ht]
    have hz : List.count t ([p].map f) = 0 := by
      simp [List.count_eq_zero, ht]
    rw [hz]

theorem couple_init (b : Bool) (m0 : List (Int × String))
    (h : (m0.map Prod.fst).Nodup) :
    Couple b m0 (initConvState m0) ([], []) := by
  refine ⟨List.Forall₂.nil, ⟨rfl, List.Forall₂.nil⟩, regInv_init m0 h,
    fun j x hx => hx, fun u i hu => hu, fun _ => rfl, ?_⟩
  intro t
  simp [ccount, dlookup, initConvState]

theorem couple_processLine {b : Bool} {m0 : List (Int × String)}
    {st st2 : ConvState} {acc} {raw : String}
    (hc : Couple b m0 st acc) (h : processLine b st raw = some st2) :
    Couple b m0 st2 (segStep acc raw) := by
  obtain ⟨hdata, hcur, hreg, hmono1, hmono2, hconst, hcount⟩ := hc
  by_cases hbl : isBoundaryLine (pyStrip raw) = true
  · -- boundary line: both sides flush
    have h2 : flushSentence st = st2 := by
      simp only [processLine, hbl, if_true, Option.some.injEq] at h
      exact h
    by_cases hemp : st.current_sentence.tokens = []
    · -- nothing to flush on either side
      have hacc : acc.2 = [] := by
        have := hcur.1
        rw [hemp] at this
        exact List.map_eq_nil.mp this.symm
      have hflush : flushSentence st = st := by
        simp [flushSentence, hemp]
      rw [hflush] at h2
      subst h2
      have hseg : segStep acc raw = acc := by
        simp [segStep, hbl, hacc]
      rw [hseg]
      exact ⟨hdata, hcur, hreg, hmono1, hmono2, hconst, hcount⟩
    · -- flush the open sentence
      have hacc : acc.2 ≠ [] := by
        intro he
        rw [he] at hcur
        exact hemp (by simpa using hcur.1)
      have hflush : flushSentence st =
          { st with
            data := st.data ++ [st.current_sentence]
            sentence_id := st.sentence_id + 1
            current_sentence :=
              { sid := toString (st.sentence_id + 1), tokens := [],
                ner_tags := [] } } := by
        simp [flushSentence, hemp]
      rw [hflush] at h2
      subst h2
      have hseg : segStep acc raw = (acc.1 ++ [acc.2], []) := by
        simp [segStep, hbl, hacc]
      rw [hseg]
      refine ⟨List.rel_append hdata (List.Forall₂.cons hcur List.Forall₂.nil),
        ⟨rfl, List.Forall₂.nil⟩, hreg, hmono1, hmono2, hconst, ?_⟩
      intro t
      rw [hcount t]
      simp
  · -- data line
    have hbl' : isBoundaryLine (pyStrip raw) = false :=
      Bool.not_eq_true _ ▸ (by simpa using hbl)
    by_cases hlen : (pySplitWs (pyStrip raw)).length ≥ 4
    · -- a well-formed token line
      have hh : processToken b st ((pySplitWs (pyStrip raw)).getD 0 "")
          ((pySplitWs (pyStrip raw)).getD 3 "") = some st2 := by
        simpa [processLine, hbl', hlen] using h
      have hseg : segStep acc raw =
          (acc.1, acc.2 ++ [((pySplitWs (pyStrip raw)).getD 0 "",
            (pySplitWs (pyStrip raw)).getD 3 "")]) := by
        simp [segStep, hbl', hlen]
      rw [hseg]
      obtain ⟨hreg2, hdata2, _, _, htoks, hconst2, hcmext, htdext, i, hner,
        hcnt, hdec⟩ := processToken_spec hreg hh
      have heff : effTagAt b st ((pySplitWs (pyStrip raw)).getD 3 "") =
          effTag b (invertMapping m0) ((pySplitWs (pyStrip raw)).getD 3 "") := by
        cases b with
        | false => rw [effTagAt_eq_effTag, hreg.1, hconst rfl]
        | true =>
            rw [effTagAt_eq_effTag]
            simp [effTag]
      refine ⟨?_, ⟨?_, ?_⟩, hreg2,
        fun j x hx => hcmext j x (hmono1 j x hx),
        fun u i0 hu => htdext u i0 (hmono2 u i0 hu), ?_, ?_⟩
      · rw [hdata2]
        exact hdata.imp (fun pairs s hs => SentOK_mono hcmext hs)
      · rw [htoks, hcur.1, List.map_append]
        rfl
      · rw [hner]
        refine List.rel_append (hcur.2.imp (fun j pr hj => hcmext _ _ hj)) ?_
        refine List.Forall₂.cons ?_ List.Forall₂.nil
        rw [← heff]
        exact hdec
      · intro hb
        rw [(hconst2 hb).1]
        exact hconst hb
      · intro t
        rw [hcnt, ccount_cinc, hcount t, heff, ← List.append_assoc,
          count_map_snoc]
    · -- malformed line: skipped by both sides
      have h2 : st = st2 := by
        simpa [processLine, hbl', hlen] using h
      subst h2
      have hseg : segStep acc raw = acc := by
        simp [segStep, hbl', hlen]
      rw [hseg]
      exact ⟨hdata, hcur, hreg, hmono1, hmono2, hconst, hcount⟩

theorem couple_runLines {b : Bool} {m0 : List (Int × String)} :
    ∀ (lines : List String) {st : ConvState} {acc} {st2 : ConvState},
    Couple b m0 st acc → runLines b st lines = some st2 →
    Couple b m0 st2 (lines.foldl segStep acc) := by
  intro lines
  induction lines with
  | nil =>
      intro st acc st2 hc h
      simp only [runLines, Option.some.injEq] at h
      subst h
      exact hc
  | cons l ls ih =>
      intro st acc st2 hc h
      rw [runLines] at h
      cases hpl : processLine b st l with
      | none => rw [hpl] at h; exact absurd h (by simp)
      | some stm =>
          rw [hpl] at h
          simp only [List.foldl_cons]
          exact ih (couple_processLine hc hpl) h

theorem finalFlush_registry (st : ConvState) :
    (finalFlush st).custom_mapping = st.custom_mapping ∧
    (finalFlush st).tag_counter = st.tag_counter ∧
    (finalFlush st).tag_dict = st.tag_dict ∧
    (finalFlush st).new_entities = st.new_entities := by
  unfold finalFlush
  split <;> exact ⟨rfl, rfl, rfl, rfl⟩

/-- Master correspondence for a successful converter run: the emitted
records match the segmented sentences (tokens preserved, ids decoding through
the final table to the effective tags), the tag counter counts effective
tags, the final mapping is a well-formed extension of the seed, and without
dynamic registration the mapping is unchanged. -/
theorem conll_to_json_spec {b : Bool} {m0 : List (Int × String)}
    {lines : List String} {res : ConvResult}
    (hnd : (m0.map Prod.fst).Nodup)
    (h : conll_to_json lines m0 b = some res) :
    List.Forall₂
      (fun pairs s => SentOK b (invertMapping m0) res.custom_mapping pairs s)
      (segmentSentences lines) res.data ∧
    (∀ t, ccount res.tag_counter t =
      ((segmentSentences lines).flatten.map
        (fun pr => effTag b (invertMapping m0) pr.2)).count t) ∧
    (res.custom_mapping.map Prod.fst).Nodup ∧
    (∀ j x, dlookup m0 j = some x → dlookup res.custom_mapping j = some x) ∧
    (∀ u i, dlookup (invertMapping m0) u = some i →
      dlookup (invertMapping res.custom_mapping) u = some i) ∧
    (b = false → res.custom_mapping = m0) := by
  rw [conll_to_json] at h
  obtain ⟨st0, hrun, hres⟩ := Option.map_eq_some'.mp h
  obtain ⟨hdata, hcur, hreg, hmono1, hmono2, hconst, hcount⟩ :=
    couple_runLines lines (couple_init b m0 hnd) hrun
  have hrescm : res.custom_mapping = st0.custom_mapping := by
    rw [← hres]
    exact (finalFlush_registry st0).1
  have hresct : res.tag_counter = st0.tag_counter := by
    rw [← hres]
    exact (finalFlush_registry st0).2.1
  have hresdata : res.data = (finalFlush st0).data := by rw [← hres]
  have hseg : segmentSentences lines =
      (if (lines.foldl segStep ([], [])).2 ≠ [] then
        (lines.foldl segStep ([], [])).1 ++ [(lines.foldl segStep ([], [])).2]
      else (lines.foldl segStep ([], [])).1) := rfl
  refine ⟨?_, ?_, ?_, ?_, ?_, ?_⟩
  · -- records vs segmented sentences, including the final flush
    rw [hrescm, hresdata, hseg]
    by_cases hemp : st0.current_sentence.tokens = []
    · have hacc : (lines.foldl segStep ([], [])).2 = [] := by
        have := hcur.1
        rw [hemp] at this
        exact List.map_eq_nil_iff.mp this.symm
      have hff : finalFlush st0 = st0 := by
        simp [finalFlush, hemp]
      rw [hff, hacc]
      simpa using hdata
    · have hacc : (lines.foldl segStep ([], [])).2 ≠ [] := by
        intro he
        rw [he] at hcur
        exact hemp (by simpa using hcur.1)
      have hff : (finalFlush st0).data = st0.data ++ [st0.current_sentence] := by
        simp [finalFlush, hemp]
      rw [hff, if_pos hacc]
      exact List.rel_append hdata (List.Forall₂.cons hcur List.Forall₂.nil)
  · -- the counter counts effective tags over all segmented tokens
    intro t
    rw [hresct, hcount t, hseg]
    by_cases hacc : (lines.foldl segStep ([], [])).2 = []
    · rw [hacc]
      simp
    · rw [if_pos hacc]
      simp
  · rw [hrescm]
    exact hreg.2.2
  · intro j x hx
    rw [hrescm]
    exact hmono1 j x hx
  · intro u i hu
    rw [hrescm, ← hreg.1]
    exact hmono2 u i hu
  · intro hb
    rw [hrescm]
    exact hconst hb

/-! ### Splitter slicing lemmas -/

theorem pyInt_zero : pyInt 0 = 0 := by
  simp [pyInt]

theorem pyInt_mul_zero (q : Rat) : pyInt (q * 0) = 0 := by
  rw [mul_zero, pyInt_zero]

theorem splitBlocks_fields (data : List String) (r : Rat × Rat × Rat)
    (h0 : 0 ≤ r.1) (h1 : 0 ≤ r.2.1) :
    (splitBlocks data r).1 =
      data.take (pyInt ((data.length : Rat) * r.1)).toNat ∧
    (splitBlocks data r).2.1 =
      (data.take ((pyInt ((data.length : Rat) * r.1)).toNat +
        (pyInt ((data.length : Rat) * r.2.1)).toNat)).drop
        (pyInt ((data.length : Rat) * r.1)).toNat := by
  constructor
  · rcases lt_or_eq_of_le h0 with h | h
    · simp [splitBlocks, h]
    · rw [splitBlocks]
      rw [← h]
      simp [lt_irrefl, pyInt_mul_zero, pyInt_zero]
  · rcases lt_or_eq_of_le h1 with h | h
    · simp [splitBlocks, h]
    · rw [splitBlocks]
      rw [← h]
      simp [lt_irrefl, pyInt_mul_zero, pyInt_zero, List.drop_take]

theorem splitBlocks_concat (data : List String) (r : Rat × Rat × Rat)
    (h0 : 0 ≤ r.1) (h1 : 0 ≤ r.2.1) (h2 : 0 < r.2.2) :
    (splitBlocks data r).1 ++ (splitBlocks data r).2.1 ++
      (splitBlocks data r).2.2 = data := by
  obtain ⟨e1, e2⟩ := splitBlocks_fields data r h0 h1
  have e3 : (splitBlocks data r).2.2 =
      data.drop ((pyInt ((data.length : Rat) * r.1)).toNat +
        (pyInt ((data.length : Rat) * r.2.1)).toNat) := by
    simp [splitBlocks, h2]
  rw [e1, e2, e3, List.drop_take, Nat.add_sub_cancel_left, ← List.take_add,
    List.take_append_drop]

/-- C1, counterexample.  The claim asserts block conservation for every
non-negative ratio triple summing to at most 1.0.  The triple `(0, 0, 0)`
sums to `0 ≤ 1.0`, yet on the one-block corpus `"a"` every split is forced
empty (the zero-ratio guards), so the input block is lost: the outputs'
multiset is empty while the input has one block. -/
theorem split_conll_drops_block_at_zero_ratios :
    ((0 : Rat) + 0 + 0 ≤ 1) ∧
    parsedBlocks "a" = ["a"] ∧
    (split_conll "corpus.conll" "a" "out" (0, 0, 0) id).train_data = [] ∧
    (split_conll "corpus.conll" "a" "out" (0, 0, 0) id).val_data = [] ∧
    (split_conll "corpus.conll" "a" "out" (0, 0, 0) id).test_data = [] := by
  have hsum : ¬ ((0 : Rat) + 0 + 0 > 1) := by norm_num
  have h10 : ¬ ((1 : Rat) < 0) := by norm_num
  have hds : docStartOf "a" = none := by decide
  refine ⟨by norm_num, by decide, ?_, ?_, ?_⟩ <;>
    simp [split_conll, hsum, h10, splitBlocks, addDocStart, hds, lt_irrefl]

/-- C1, amended.  Whenever the test ratio is positive (and the first two
ratios are non-negative, sum at most 1.0), the three slices concatenate to
exactly the shuffled block list, so the multiset of blocks across the three
outputs (each being its slice with the detached document marker re-inserted)
equals the multiset of input body blocks: nothing is lost or duplicated.
With a zero test ratio, blocks beyond `val_end_idx` are dropped (see the
counterexample). -/
theorem split_conll_conserves_blocks (conll_file content output_dir : String)
    (r : Rat × Rat × Rat) (shuffle : List String → List String)
    (hsh : ∀ l, (shuffle l).Perm l)
    (h0 : 0 ≤ r.1) (h1 : 0 ≤ r.2.1) (h2 : 0 < r.2.2)
    (hsum : r.1 + r.2.1 + r.2.2 ≤ 1) :
    ((splitBlocks (shuffle (bodyBlocks content)) r).1 ++
      (splitBlocks (shuffle (bodyBlocks content)) r).2.1 ++
      (splitBlocks (shuffle (bodyBlocks content)) r).2.2).Perm
      (bodyBlocks content) ∧
    (split_conll conll_file content output_dir r shuffle).train_data =
      addDocStart (docStartOf content)
        (splitBlocks (shuffle (bodyBlocks content)) r).1 ∧
    (split_conll conll_file content output_dir r shuffle).val_data =
      addDocStart (docStartOf content)
        (splitBlocks (shuffle (bodyBlocks content)) r).2.1 ∧
    (split_conll conll_file content output_dir r shuffle).test_data =
      addDocStart (docStartOf content)
        (splitBlocks (shuffle (bodyBlocks content)) r).2.2 := by
  have hns : ¬ (r.1 + r.2.1 + r.2.2 > 1) := not_lt.mpr hsum
  refine ⟨?_, ?_, ?_, ?_⟩
  · rw [splitBlocks_concat _ r h0 h1 h2]
    exact hsh _
  all_goals simp [split_conll, hns]

/-- Witness for the amended C1 theorem at a concrete input. -/
theorem split_conll_conserves_blocks_witness :
    ((splitBlocks (id (bodyBlocks "a\n\nb")) (0, 0, 1)).1 ++
      (splitBlocks (id (bodyBlocks "a\n\nb")) (0, 0, 1)).2.1 ++
      (splitBlocks (id (bodyBlocks "a\n\nb")) (0, 0, 1)).2.2).Perm
      (bodyBlocks "a\n\nb") ∧
    (split_conll "corpus.conll" "a\n\nb" "out" (0, 0, 1) id).train_data =
      addDocStart (docStartOf "a\n\nb")
        (splitBlocks (id (bodyBlocks "a\n\nb")) (0, 0, 1)).1 ∧
    (split_conll "corpus.conll" "a\n\nb" "out" (0, 0, 1) id).val_data =
      addDocStart (docStartOf "a\n\nb")
        (splitBlocks (id (bodyBlocks "a\n\nb")) (0, 0, 1)).2.1 ∧
    (split_conll "corpus.conll" "a\n\nb" "out" (0, 0, 1) id).test_data =
      addDocStart (docStartOf "a\n\nb")
        (splitBlocks (id (bodyBlocks "a\n\nb")) (0, 0, 1)).2.2 :=
  split_conll_conserves_blocks "corpus.conll" "a\n\nb" "out" (0, 0, 1) id
    (fun l => List.Perm.refl l) (by norm_num) (by norm_num) (by norm_num)
    (by norm_num)

theorem addDocStart_nil (ds : Option String) : addDocStart ds [] = [] := by
  cases ds <;> simp [addDocStart]

theorem filter_writes_ne (dir name n : String) (c : Prop) [Decidable c]
    (x : String) (h : ¬ n = name) :
    ((if c then [FsEffect.writeEff dir n x] else []).filter
      (writesTo dir name)) = [] := by
  split <;> simp [writesTo, h]

/-- C6, confirmed.  A ratio component equal to 0 forces the corresponding
split list empty (even when the slice arithmetic would be non-empty), and no
write of that split's file ever appears in the effect trace. -/
theorem split_conll_zero_ratio_forces_empty
    (conll_file content output_dir : String) (r : Rat × Rat × Rat)
    (shuffle : List String → List String) :
    (r.1 = 0 →
      (split_conll conll_file content output_dir r shuffle).train_data = [] ∧
      ((split_conll conll_file content output_dir r shuffle).effects.filter
        (writesTo output_dir "train.conll")) = []) ∧
    (r.2.1 = 0 →
      (split_conll conll_file content output_dir r shuffle).val_data = [] ∧
      ((split_conll conll_file content output_dir r shuffle).effects.filter
        (writesTo output_dir "val.conll")) = []) ∧
    (r.2.2 = 0 →
      (split_conll conll_file content output_dir r shuffle).test_data = [] ∧
      ((split_conll conll_file content output_dir r shuffle).effects.filter
        (writesTo output_dir "test.conll")) = []) := by
  obtain ⟨r1, r2, r3⟩ := r
  have hvt : ¬ (("val.conll" : String) = "train.conll") := by decide
  have htt : ¬ (("test.conll" : String) = "train.conll") := by decide
  have htv : ¬ (("train.conll" : String) = "val.conll") := by decide
  have htsv : ¬ (("test.conll" : String) = "val.conll") := by decide
  have htrt : ¬ (("train.conll" : String) = "test.conll") := by decide
  have hvtt : ¬ (("val.conll" : String) = "test.conll") := by decide
  by_cases hsum : r1 + r2 + r3 > 1
  · refine ⟨fun _ => ⟨?_, ?_⟩, fun _ => ⟨?_, ?_⟩, fun _ => ⟨?_, ?_⟩⟩ <;>
      simp [split_conll, hsum, writesTo]
  · refine ⟨fun h => ?_, fun h => ?_, fun h => ?_⟩ <;> subst h <;>
      simp only [zero_add, add_zero] at hsum
    · constructor
      · simp [split_conll, hsum, splitBlocks, lt_irrefl, addDocStart_nil]
      · simp [split_conll, hsum, splitBlocks, lt_irrefl, addDocStart_nil,
          writesTo, hvt, htt]
    · constructor
      · simp [split_conll, hsum, splitBlocks, lt_irrefl, addDocStart_nil]
      · simp [split_conll, hsum, splitBlocks, lt_irrefl, addDocStart_nil,
          writesTo, htv, htsv]
    · constructor
      · simp [split_conll, hsum, splitBlocks, lt_irrefl, addDocStart_nil]
      · simp [split_conll, hsum, splitBlocks, lt_irrefl, addDocStart_nil,
          writesTo, htrt, hvtt]

/-- Witness for the C6 theorem at the all-zero ratio triple. -/
theorem split_conll_zero_ratio_forces_empty_witness :
    ((split_conll "corpus.conll" "a\n\nb" "out" (0, 0, 0) id).train_data = [] ∧
      ((split_conll "corpus.conll" "a\n\nb" "out" (0, 0, 0) id).effects.filter
        (writesTo "out" "train.conll")) = []) ∧
    ((split_conll "corpus.conll" "a\n\nb" "out" (0, 0, 0) id).val_data = [] ∧
      ((split_conll "corpus.conll" "a\n\nb" "out" (0, 0, 0) id).effects.filter
        (writesTo "out" "val.conll")) = []) ∧
    ((split_conll "corpus.conll" "a\n\nb" "out" (0, 0, 0) id).test_data = [] ∧
      ((split_conll "corpus.conll" "a\n\nb" "out" (0, 0, 0) id).effects.filter
        (writesTo "out" "test.conll")) = []) := by
  have h := split_conll_zero_ratio_forces_empty "corpus.conll" "a\n\nb" "out"
    (0, 0, 0) id
  exact ⟨h.1 rfl, h.2.1 rfl, h.2.2 rfl⟩

/-- C4, counterexample.  On a ratio sum above 1.0 the splitter does raise the
wrapped configuration error, but only after `os.makedirs(output_dir)`: the
effect trace contains the directory creation, contradicting the claim that no
filesystem state is created. -/
theorem split_conll_creates_dir_on_bad_ratio :
    ((1 / 2 : Rat) + 1 / 2 + 1 / 5 > 1) ∧
    (split_conll "corpus.conll" "x" "out" (1 / 2, 1 / 2, 1 / 5) id).result =
      .error
        "Error during CoNLL splitting: The sum of the split ratios exceeds 1.0" ∧
    FsEffect.mkdirEff "out" ∈
      (split_conll "corpus.conll" "x" "out" (1 / 2, 1 / 2, 1 / 5) id).effects := by
  have h : ((1 / 2 : Rat) + 1 / 2 + 1 / 5 > 1) := by norm_num
  have h' : (1 : Rat) < 2⁻¹ + 2⁻¹ + 5⁻¹ := by norm_num
  refine ⟨h, ?_, ?_⟩ <;> simp [split_conll, h']

/-- C4, amended.  When the ratio sum exceeds 1.0 the splitter raises the
configuration error (wrapped in the generic splitting-error message) before
reading the corpus, before shuffling and before writing any file; the only
filesystem action already performed is the `os.makedirs` of the output
directory. -/
theorem split_conll_bad_ratio_stops_early
    (conll_file content output_dir : String) (r : Rat × Rat × Rat)
    (shuffle : List String → List String)
    (h : r.1 + r.2.1 + r.2.2 > 1) :
    (split_conll conll_file content output_dir r shuffle).result =
      .error
        "Error during CoNLL splitting: The sum of the split ratios exceeds 1.0" ∧
    (split_conll conll_file content output_dir r shuffle).effects =
      [FsEffect.mkdirEff output_dir] := by
  constructor <;> simp [split_conll, h]

/-- Witness for the amended C4 theorem. -/
theorem split_conll_bad_ratio_stops_early_witness :
    (split_conll "corpus.conll" "x" "out" (1 / 2, 1 / 2, 1 / 5) id).result =
      .error
        "Error during CoNLL splitting: The sum of the split ratios exceeds 1.0" ∧
    (split_conll "corpus.conll" "x" "out" (1 / 2, 1 / 2, 1 / 5) id).effects =
      [FsEffect.mkdirEff "out"] :=
  split_conll_bad_ratio_stops_early "corpus.conll" "x" "out" (1 / 2, 1 / 2, 1 / 5)
    id (by norm_num)

/-- C2, counterexample.  The scenario's input lines carry only two
whitespace-separated fields each, but a data line is used only when it has at
least 4 fields (`len(parts) >= 4`, the tag being field 3), so every line of
the scenario input is silently skipped and the conversion yields zero
sentences, not two. -/
theorem conll_scenario_two_field_lines_no_sentences :
    conll_to_json ["Alice B-PER", "loves O", "Bob B-PER", "", "No O", ""] []
        true =
      some { data := [], custom_mapping := [], tag_counter := [],
             new_entities := [], sentences_processed := 0, unique_tags := 0 } ∧
    (0 : Nat) ≠ 2 := by
  constructor
  · decide
  · decide

/-- C2, amended.  With each line carrying the full four CoNLL columns
(`token -X- _ tag`), the scenario behaves as described: two sentences, ids
assigned in first-seen order `B-PER = 0`, `O = 1`, tag id sequences
`[0, 1, 0]` and `[1]`, and newly discovered tags `B-PER` and `O`. -/
theorem conll_scenario_four_field_lines :
    conll_to_json
        ["Alice -X- _ B-PER", "loves -X- _ O", "Bob -X- _ B-PER", "",
         "No -X- _ O", ""] [] true =
      some { data := [{ sid := "0", tokens := ["Alice", "loves", "Bob"],
                        ner_tags := [0, 1, 0] },
                      { sid := "1", tokens := ["No"], ner_tags := [1] }]
             custom_mapping := [(0, "B-PER"), (1, "O")]
             tag_counter := [("B-PER", 2), ("O", 2)]
             new_entities := ["B-PER", "O"]
             sentences_processed := 2
             unique_tags := 2 } := by
  decide

/-- C3, counterexample.  With dynamic registration disabled and only `"O"`
registered, a token tagged `B-PER` is fallback-substituted, and the counter
increment runs *after* the rebinding `ner_tag = 'O'`: the frequency counter
records the occurrence under `"O"`, and the original tag `B-PER` is not
counted at all. -/
theorem conll_fallback_counted_under_O :
    conll_to_json ["Alice -X- _ B-PER"] [(0, "O")] false =
      some { data := [{ sid := "0", tokens := ["Alice"], ner_tags := [0] }]
             custom_mapping := [(0, "O")]
             tag_counter := [("O", 1)]
             new_entities := []
             sentences_processed := 1
             unique_tags := 1 } ∧
    ccount [("O", 1)] "B-PER" = 0 := by
  constructor
  · decide
  · decide

/-- C3, amended.  The conversion summary's frequency counter is keyed by the
tag as counted *after* fallback substitution: each processed token
contributes one count to its effective tag (the original tag when registered
or dynamically registered, `"O"` when fallback-substituted). -/
theorem tag_counter_counts_post_fallback_tags {b : Bool}
    {m : List (Int × String)} {lines : List String} {res : ConvResult}
    (hnd : (m.map Prod.fst).Nodup)
    (h : conll_to_json lines m b = some res) :
    ∀ t, ccount res.tag_counter t =
      ((segmentSentences lines).flatten.map
        (fun pr => effTag b (invertMapping m) pr.2)).count t :=
  (conll_to_json_spec hnd h).2.1

/-- Witness for the amended C3 theorem. -/
theorem tag_counter_counts_post_fallback_tags_witness :
    ccount [("O", 1)] "O" =
      ((segmentSentences ["Alice -X- _ B-PER"]).flatten.map
        (fun pr => effTag false (invertMapping [(0, "O")]) pr.2)).count "O" :=
  @tag_counter_counts_post_fallback_tags false [(0, "O")]
    ["Alice -X- _ B-PER"]
    { data := [{ sid := "0", tokens := ["Alice"], ner_tags := [0] }]
      custom_mapping := [(0, "O")]
      tag_counter := [("O", 1)]
      new_entities := []
      sentences_processed := 1
      unique_tags := 1 }
    (by decide) (by decide) "O"

/-- C9, confirmed.  For any successful conversion, the emitted records align
with the segmented sentences: tokens are preserved, and mapping each record's
tag ids back through the final id-to-tag table recovers, for every token, its
effective tag — the original textual tag whenever it was pre-registered or
dynamically registered, and `"O"` for fallback-substituted tokens. -/
theorem conll_to_json_roundtrip {b : Bool} {m : List (Int × String)}
    {lines : List String} {res : ConvResult}
    (hnd : (m.map Prod.fst).Nodup)
    (h : conll_to_json lines m b = some res) :
    List.Forall₂
      (fun pairs s => SentOK b (invertMapping m) res.custom_mapping pairs s)
      (segmentSentences lines) res.data :=
  (conll_to_json_spec hnd h).1

/-- Witness for the C9 round-trip theorem: a run with one pre-registered tag
recovered as itself and one unknown tag recovered as `"O"`. -/
theorem conll_to_json_roundtrip_witness :
    conll_to_json ["Alice -X- _ B-PER", "bad -X- _ Z"]
        [(0, "O"), (1, "B-PER")] false =
      some { data := [{ sid := "0", tokens := ["Alice", "bad"],
                        ner_tags := [1, 0] }]
             custom_mapping := [(0, "O"), (1, "B-PER")]
             tag_counter := [("B-PER", 1), ("O", 1)]
             new_entities := []
             sentences_processed := 1
             unique_tags := 2 } ∧
    List.Forall₂
      (fun pairs s => SentOK false (invertMapping [(0, "O"), (1, "B-PER")])
        (ConvResult.custom_mapping
          { data := [{ sid := "0", tokens := ["Alice", "bad"],
                       ner_tags := [1, 0] }]
            custom_mapping := [(0, "O"), (1, "B-PER")]
            tag_counter := [("B-PER", 1), ("O", 1)]
            new_entities := []
            sentences_processed := 1
            unique_tags := 2 }) pairs s)
      (segmentSentences ["Alice -X- _ B-PER", "bad -X- _ Z"])
      (ConvResult.data
        { data := [{ sid := "0", tokens := ["Alice", "bad"],
                     ner_tags := [1, 0] }]
          custom_mapping := [(0, "O"), (1, "B-PER")]
          tag_counter := [("B-PER", 1), ("O", 1)]
          new_entities := []
          sentences_processed := 1
          unique_tags := 2 }) :=
  ⟨by decide, conll_to_json_roundtrip (by decide) (by decide)⟩

/-! ### Registration order lemmas -/

/-- Folding the registration step over a list of tags (what the converter
does to each unknown tag, in encounter order, with dynamic registration
enabled). -/
def registerAll (st : ConvState) (tags : List String) : ConvState :=
  tags.foldl (fun s t => (resolveTag true s t).1) st

theorem resolveTag_keeps {b : Bool} {st : ConvState} {t u : String} {i : Int}
    (h : dlookup st.tag_dict u = some i) :
    dlookup (resolveTag b st t).1.tag_dict u = some i := by
  by_cases hks : (dlookup st.tag_dict t).isSome
  · simp [resolveTag, hks, h]
  · cases b with
    | false => simp [resolveTag, hks, h]
    | true =>
        have hut : u ≠ t := by
          intro e
          subst e
          simp [h] at hks
        simp only [resolveTag, hks, if_false, if_true, Bool.false_eq_true]
        rw [dlookup_dinsert_ne _ _ hut]
        exact h

theorem resolveTag_register_spec {st : ConvState} {t : String}
    (hreg : RegInv st) (habs : dlookup st.tag_dict t = none) :
    RegInv (resolveTag true st t).1 ∧
    (resolveTag true st t).1.max_tag_id = st.max_tag_id + 1 ∧
    dlookup (resolveTag true st t).1.tag_dict t = some (st.max_tag_id + 1) ∧
    (∀ u, u ≠ t →
      dlookup (resolveTag true st t).1.tag_dict u = dlookup st.tag_dict u) := by
  have hks : ¬ (dlookup st.tag_dict t).isSome = true := by simp [habs]
  have hcmfresh : dlookup st.custom_mapping (st.max_tag_id + 1) = none :=
    fresh_key_absent hreg
  have hcm : dinsert st.custom_mapping (st.max_tag_id + 1) t =
      st.custom_mapping ++ [(st.max_tag_id + 1, t)] :=
    dinsert_of_absent _ hcmfresh
  have hfreshk : st.max_tag_id + 1 ∉ st.custom_mapping.map Prod.fst :=
    dlookup_eq_none_iff.mp hcmfresh
  have hres : resolveTag true st t =
      ({ st with
          max_tag_id := st.max_tag_id + 1
          tag_dict := dinsert st.tag_dict t (st.max_tag_id + 1)
          custom_mapping := dinsert st.custom_mapping (st.max_tag_id + 1) t
          new_entities := sadd st.new_entities t }, t) := by
    simp [resolveTag, hks]
  obtain ⟨hr1, hr2, hr3⟩ := hreg
  rw [hres]
  refine ⟨⟨?_, ?_, ?_⟩, rfl, dlookup_dinsert_self _ _ _,
    fun u hu => dlookup_dinsert_ne _ _ hu⟩
  · show dinsert st.tag_dict t (st.max_tag_id + 1) =
      invertMapping (dinsert st.custom_mapping (st.max_tag_id + 1) t)
    rw [hcm, invertMapping_snoc, ← hr1]
  · show st.max_tag_id + 1 =
      maxKeys (dinsert st.custom_mapping (st.max_tag_id + 1) t)
    rw [hcm, maxKeys_snoc _ (by rw [← hr2]; omega)]
  · show ((dinsert st.custom_mapping (st.max_tag_id + 1) t).map
      Prod.fst).Nodup
    rw [hcm]
    simp only [List.map_append, List.map_cons, List.map_nil]
    refine List.Nodup.append hr3 (List.nodup_singleton _) ?_
    intro x hx hmem
    simp only [List.mem_singleton] at hmem
    subst hmem
    exact hfreshk hx

theorem registerAll_keeps :
    ∀ (tags : List String) {st : ConvState} {u : String} {i : Int},
      dlookup st.tag_dict u = some i →
      dlookup (registerAll st tags).tag_dict u = some i := by
  intro tags
  induction tags with
  | nil => intro st u i h; exact h
  | cons t ts ih =>
      intro st u i h
      exact ih (resolveTag_keeps h)

theorem registerAll_lookup :
    ∀ (tags : List String) (st : ConvState), RegInv st →
      (∀ t ∈ tags, dlookup st.tag_dict t = none) → tags.Nodup →
      ∀ i (hi : i < tags.length),
        dlookup (registerAll st tags).tag_dict (tags.get ⟨i, hi⟩) =
          some (st.max_tag_id + 1 + (i : Int)) := by
  intro tags
  induction tags with
  | nil =>
      intro st _ _ _ i hi
      exact absurd hi (by simp)
  | cons t ts ih =>
      intro st hreg habs hnd i hi
      obtain ⟨hreg2, hmax2, hself, hother⟩ :=
        resolveTag_register_spec hreg (habs t (List.mem_cons_self t ts))
      have hstep : registerAll st (t :: ts) =
          registerAll (resolveTag true st t).1 ts := rfl
      rw [hstep]
      cases i with
      | zero =>
          have h0 : dlookup (registerAll (resolveTag true st t).1 ts).tag_dict
              t = some (st.max_tag_id + 1) := registerAll_keeps ts hself
          simpa using h0
      | succ j =>
          have hj : j < ts.length := by
            simpa [Nat.succ_lt_succ_iff] using hi
          have habs2 : ∀ u ∈ ts, dlookup (resolveTag true st t).1.tag_dict u
              = none := by
            intro u hu
            have hut : u ≠ t := by
              intro e
              subst e
              exact (List.nodup_cons.mp hnd).1 hu
            rw [hother u hut]
            exact habs u (List.mem_cons_of_mem _ hu)
          have := ih (resolveTag true st t).1 hreg2 habs2
            (List.nodup_cons.mp hnd).2 j hj
          rw [hmax2] at this
          have hget : (t :: ts).get ⟨j + 1, hi⟩ = ts.get ⟨j, hj⟩ := rfl
          rw [hget, this]
          congr 1
          push_cast
          ring

/-- C7, confirmed.  Registering N distinct unseen tags into the empty
registry assigns the ids 0 through N-1 in first-seen order; in general, a
newly registered tag receives `max(existing ids) + 1` (which is 0 on the
empty registry, since `maxKeys [] = -1`). -/
theorem tag_registry_first_seen_ids (tags : List String) (hnd : tags.Nodup) :
    (∀ i (hi : i < tags.length),
      dlookup (registerAll (initConvState []) tags).tag_dict
        (tags.get ⟨i, hi⟩) = some (i : Int)) ∧
    (∀ (st : ConvState) (t : String), RegInv st →
      dlookup st.tag_dict t = none →
      dlookup (resolveTag true st t).1.tag_dict t =
        some (maxKeys st.custom_mapping + 1)) := by
  constructor
  · intro i hi
    have habs : ∀ t ∈ tags, dlookup (initConvState []).tag_dict t = none := by
      intro t _
      rfl
    have h := registerAll_lookup tags (initConvState [])
      (regInv_init [] (by simp)) habs hnd i hi
    have harith : (initConvState []).max_tag_id + 1 + (i : Int) = (i : Int) := by
      show (-1 : Int) + 1 + (i : Int) = (i : Int)
      ring
    rw [harith] at h
    exact h
  · intro st t hreg habs
    rw [← hreg.2.1]
    exact (resolveTag_register_spec hreg habs).2.2.1

/-- Witness for the C7 theorem: the second of two distinct fresh tags gets
id 1. -/
theorem tag_registry_first_seen_ids_witness :
    dlookup (registerAll (initConvState []) ["B-PER", "O"]).tag_dict "O" =
      some ((1 : Nat) : Int) :=
  (tag_registry_first_seen_ids ["B-PER", "O"] (by decide)).1 1 (by decide)

/-- C8, confirmed.  Resolving a tag that is already registered returns the
state unchanged (no registry mutation) and the tag's previously assigned id
is still found under the same id afterwards. -/
theorem resolveTag_existing_unchanged (b : Bool) (st : ConvState)
    (t : String) (i : Int) (h : dlookup st.tag_dict t = some i) :
    resolveTag b st t = (st, t) ∧
    dlookup (resolveTag b st t).1.tag_dict t = some i := by
  have hks : (dlookup st.tag_dict t).isSome = true := by simp [h]
  constructor
  · simp [resolveTag, hks]
  · simp [resolveTag, hks, h]

/-- Witness for the C8 theorem. -/
theorem resolveTag_existing_unchanged_witness :
    resolveTag true (initConvState [(0, "O")]) "O" =
      (initConvState [(0, "O")], "O") ∧
    dlookup (resolveTag true (initConvState [(0, "O")]) "O").1.tag_dict "O" =
      some 0 :=
  resolveTag_existing_unchanged true (initConvState [(0, "O")]) "O" 0
    (by decide)

/-! ### Mapping persistence across splits -/

theorem conll_mapping_mono {m : List (Int × String)} {ls : List String}
    {res : ConvResult} (hnd : (m.map Prod.fst).Nodup)
    (h : conll_to_json ls m true = some res) :
    (res.custom_mapping.map Prod.fst).Nodup ∧
    (∀ t i, dlookup (invertMapping m) t = some i →
      dlookup (invertMapping res.custom_mapping) t = some i) := by
  obtain ⟨_, _, hnd2, _, hmono, _⟩ := conll_to_json_spec hnd h
  exact ⟨hnd2, fun t i ht => hmono t i ht⟩

theorem convert_splits_shared_persist (cfg : List (Int × String)) :
    ∀ (splits : List (List String)) (m : List (Int × String)),
      (m.map Prod.fst).Nodup →
      ∀ t i, dlookup (invertMapping m) t = some i →
      ∀ m2, (convert_splits cfg splits (some m)).2 = some m2 →
        dlookup (invertMapping m2) t = some i := by
  intro splits
  induction splits with
  | nil =>
      intro m _ t i ht m2 h2
      simp only [convert_splits, Option.some.injEq] at h2
      subst h2
      exact ht
  | cons ls rest ih =>
      intro m hnd t i ht m2 h2
      rw [convert_splits] at h2
      cases hc : conll_to_json ls m true with
      | some res =>
          rw [hc] at h2
          simp only at h2
          obtain ⟨hnd2, hmono⟩ := conll_mapping_mono hnd hc
          exact ih res.custom_mapping hnd2 t i (hmono t i ht) m2 h2
      | none =>
          rw [hc] at h2
          simp only at h2
          exact ih m hnd t i ht m2 h2

/-- C10, confirmed.  When an explicit tag mapping is supplied, the
per-split conversion loop threads the very same (mutated-in-place) mapping
through every call: a tag's id, once present in the shared mapping before or
during any split, is still its id in the mapping after all later splits.
When no mapping is supplied, every conversion starts from the latest model
configuration (`cfg`, empty when absent) untouched by the previous splits:
the loop's results are exactly the independent per-split conversions. -/
theorem conversion_loop_mapping_stable (cfg : List (Int × String))
    (splits : List (List String)) (m : List (Int × String))
    (t : String) (i : Int) (hnd : (m.map Prod.fst).Nodup)
    (ht : dlookup (invertMapping m) t = some i) :
    (∀ m2, (convert_splits cfg splits (some m)).2 = some m2 →
      dlookup (invertMapping m2) t = some i) ∧
    (convert_splits cfg splits none).1 =
      splits.map (fun ls => conll_to_json ls cfg true) := by
  constructor
  · exact fun m2 h2 =>
      convert_splits_shared_persist cfg splits m hnd t i ht m2 h2
  · induction splits with
    | nil => simp [convert_splits]
    | cons ls rest ih =>
        rw [convert_splits]
        cases hc : conll_to_json ls cfg true with
        | some res => simp [hc, ih]
        | none => simp [hc, ih]

/-- Witness for the C10 theorem: the tag `A`, first discovered while
converting the first split, keeps id 1 in the shared mapping after the
second split. -/
theorem conversion_loop_mapping_stable_witness :
    (convert_splits [] [["x -X- _ A"], ["y -X- _ A"]]
      (some [(0, "O")])).2 = some [(0, "O"), (1, "A")] ∧
    dlookup (invertMapping [(0, "O"), (1, "A")]) "O" = some 0 := by
  refine ⟨by decide, ?_⟩
  exact (conversion_loop_mapping_stable [] [["x -X- _ A"], ["y -X- _ A"]]
    [(0, "O")] "O" 0 (by decide) (by decide)).1 [(0, "O"), (1, "A")]
    (by decide)

/-! ### Endpoint status classification -/

theorem process_conll_wf_ratios (rf : Option (List (Option Rat)))
    (h : ratiosWellFormed rf = true) (cm : Option MapField)
    (ff : Option Bool) (p : Bool) :
    process_conll rf cm ff p = process_conll_rest (parsedRatios rf) cm ff p := by
  cases rf with
  | none => rfl
  | some comps =>
      simp only [ratiosWellFormed, Bool.and_eq_true, Bool.not_eq_true',
        beq_iff_eq] at h
      simp [process_conll, parsedRatios, h.1, h.2]

theorem process_conll_wf_map (ratios : List Rat) (cm : Option MapField)
    (h : mapWellFormed cm = true) (ff : Option Bool) (p : Bool) :
    process_conll_rest ratios cm ff p = process_conll_core ratios ff p := by
  cases cm with
  | none => rfl
  | some mf =>
      cases mf with
      | badJson => simp [mapWellFormed] at h
      | nonObject => simp [mapWellFormed] at h
      | entries l =>
          simp only [mapWellFormed, Bool.not_eq_true'] at h
          simp [process_conll_rest, h]

/-- C5, counterexample.  A non-numeric ratio component (`float()` raises
inside the handler's `try`) and a ratio triple summing to 1.2 (the
`ValueError` raised by the splitter, re-wrapped and caught by the same
handler) are both answered with the server-error status 500, not with a
client-error status as the claim requires. -/
theorem process_conll_misclassifies_bad_ratios :
    process_conll (some [none, some (1 / 2), some (1 / 2)]) none (some true)
      true = 500 ∧
    process_conll (some [some (1 / 2), some (1 / 2), some (1 / 5)]) none
      (some true) true = 500 := by
  constructor
  · decide
  · rw [process_conll_wf_ratios (some [some (1 / 2), some (1 / 2),
        some (1 / 5)]) (by decide),
      process_conll_wf_map
        (parsedRatios (some [some (1 / 2), some (1 / 2), some (1 / 5)]))
        none rfl]
    have hsum : (parsedRatios
        (some [some (1 / 2), some (1 / 2), some (1 / 5)])).foldl (· + ·) 0
        > 1 := by
      show ((((0 : Rat) + 1 / 2) + 1 / 2) + 1 / 5) > 1
      norm_num
    simp only [process_conll_core]
    rw [if_pos hsum]

/-- C5, amended.  The handler's status classification is: a client error 400
for a well-parsed ratio list of the wrong count and for undecodable
`custom_map` JSON; a server error 500 for a non-numeric ratio component, a
decoded non-object `custom_map`, a non-integer `custom_map` key, a ratio sum
exceeding 1.0, and any processing failure.  (Thus ratio-sum and
non-numeric-ratio failures are server errors, unlike the spec's claim.) -/
theorem process_conll_status_classification
    (rf : Option (List (Option Rat))) (cm : Option MapField)
    (ff : Option Bool) (p : Bool) (comps : List (Option Rat))
    (l : List (Option Int × String)) :
    (comps.any (fun c => c.isNone) = true →
      process_conll (some comps) cm ff p = 500) ∧
    (comps.any (fun c => c.isNone) = false → comps.length ≠ 3 →
      process_conll (some comps) cm ff p = 400) ∧
    (ratiosWellFormed rf = true →
      process_conll rf (some .badJson) ff p = 400) ∧
    (ratiosWellFormed rf = true →
      process_conll rf (some .nonObject) ff p = 500) ∧
    (ratiosWellFormed rf = true → l.any (fun e => e.1.isNone) = true →
      process_conll rf (some (.entries l)) ff p = 500) ∧
    (ratiosWellFormed rf = true → mapWellFormed cm = true →
      (parsedRatios rf).foldl (· + ·) 0 > 1 →
      process_conll rf cm (some true) p = 500) ∧
    (ratiosWellFormed rf = true → mapWellFormed cm = true →
      ¬ ((parsedRatios rf).foldl (· + ·) 0 > 1) →
      process_conll rf cm (some true) false = 500) := by
  refine ⟨?_, ?_, ?_, ?_, ?_, ?_, ?_⟩
  · intro h
    simp [process_conll, h]
  · intro h1 h2
    simp [process_conll, h1, h2]
  · intro h
    rw [process_conll_wf_ratios _ h]
    rfl
  · intro h
    rw [process_conll_wf_ratios _ h]
    rfl
  · intro h hl
    rw [process_conll_wf_ratios _ h]
    simp [process_conll_rest, hl]
  · intro h hm hsum
    rw [process_conll_wf_ratios _ h, process_conll_wf_map _ _ hm]
    simp [process_conll_core, hsum]
  · intro h hm hsum
    rw [process_conll_wf_ratios _ h, process_conll_wf_map _ _ hm]
    simp [process_conll_core, hsum]

/-- Witness for the amended C5 theorem across its cases. -/
theorem process_conll_status_classification_witness :
    process_conll (some [none]) none (some true) true = 500 ∧
    process_conll (some [some 1, some 1]) none (some true) true = 400 ∧
    process_conll none (some .badJson) (some true) true = 400 ∧
    process_conll none (some .nonObject) (some true) true = 500 ∧
    process_conll none (some (.entries [(none, "O")])) (some true) true
      = 500 ∧
    process_conll (some [some 1, some 1, some 1]) none (some true) true
      = 500 ∧
    process_conll none none (some true) false = 500 := by
  refine ⟨?_, ?_, ?_, ?_, ?_, ?_, ?_⟩
  · exact (process_conll_status_classification (some [none]) none (some true)
      true [none] []).1 (by decide)
  · exact (process_conll_status_classification (some [some 1, some 1]) none
      (some true) true [some 1, some 1] []).2.1 (by decide) (by decide)
  · exact (process_conll_status_classification none none (some true) true []
      []).2.2.1 (by decide)
  · exact (process_conll_status_classification none none (some true) true []
      []).2.2.2.1 (by decide)
  · exact (process_conll_status_classification none none (some true) true []
      [(none, "O")]).2.2.2.2.1 (by decide) (by decide)
  · exact (process_conll_status_classification
      (some [some 1, some 1, some 1]) none (some true) true
      [some 1, some 1, some 1] []).2.2.2.2.2.1 (by decide) rfl
      (by show ((((0 : Rat) + 1) + 1) + 1) > 1; norm_num)
  · exact (process_conll_status_classification none none (some true) false []
      []).2.2.2.2.2.2 rfl rfl
      (by show ¬ ((((0 : Rat) + 0.7) + 0.15) + 0.15) > 1; norm_num)
